import Mathlib

/-
Verification of the batch-lifecycle and job-dispatch logic of the
amazon-distributed-runner repository (src/adr/adr.py), via a shallow
embedding of its pure core into Lean.  Paths are manipulated exactly as
the source does: as strings split on the path separator character.
-/

namespace Adr

/-- Splits a list of characters on a separator character, mirroring the
semantics of the split method of Python strings with a one-character
separator: the empty input yields one empty field, and every occurrence
of the separator starts a new field. -/
def splitChar (sep : Char) : List Char → List (List Char)
  | [] => [[]]
  | c :: cs =>
    if c = sep then [] :: splitChar sep cs
    else
      match splitChar sep cs with
      | [] => [[c]]
      | l :: ls => (c :: l) :: ls

/-- Python str.split with a one-character separator, on Lean strings. -/
def pysplit (sep : Char) (s : String) : List String :=
  (splitChar sep s.data).map String.mk

/-- Python sep.join with a one-character separator, on character lists. -/
def joinChar (sep : Char) : List (List Char) → List Char
  | [] => []
  | [l] => l
  | l :: ls => l ++ sep :: joinChar sep ls

/-- Python sep.join with a one-character separator, on Lean strings. -/
def pyjoin (sep : Char) (ls : List String) : String :=
  String.mk (joinChar sep (ls.map String.data))

/-- Python len(set(x)) <= 1 for a list of strings: all elements equal. -/
def allEqStr : List String → Bool
  | [] => true
  | x :: xs => xs.all (fun y => y == x)

/-- Length of the shortest member, the truncation depth of Python zip. -/
def minLen (parts : List (List String)) : Nat :=
  match parts with
  | [] => 0
  | p :: ps => ps.foldl (fun m q => min m q.length) p.length

/-- zip(*parts) of Python: the list of columns, truncated to the
shortest row.  Empty input gives no columns. -/
def zipCols (parts : List (List String)) : List (List String) :=
  match parts with
  | [] => []
  | _ => (List.range (minLen parts)).map (fun i => parts.map (fun p => p.getD i ""))

/-- The Python exceptions that the embedded code paths can mention.
attributeError is what the logging calls split in two across a blank
line raise (a bare logger.inf statement is an attribute access on the
logger); the source defines no EmptyBatchError, AmbiguousRootError or
FormatError classes; those constructors exist so spec-level statements
about them can be expressed and refuted. -/
inductive PyErr
  | valueError
  | indexError
  | attributeError
  | emptyBatchError
  | ambiguousRootError
  | formatError
  deriving DecidableEq

/-- Python list.index(False) on a list of booleans: index of the first
False entry, or a ValueError when there is none. -/
def pyindexFalse : List Bool → Except PyErr Nat
  | [] => .error .valueError
  | b :: bs =>
    if b then (pyindexFalse bs).map (fun n => n + 1)
    else .ok 0

/-- find_root of adr.py: split every path on the separator, find the
first zipped column whose entries are not all equal, and join the first
path's segments before that column.  list.index raises ValueError when
every column agrees. -/
def find_root (files : List String) : Except PyErr String :=
  let parts := files.map (fun f => pysplit '/' f)
  let flags := (zipCols parts).map allEqStr
  match pyindexFalse flags with
  | .error e => .error e
  | .ok ix => .ok (pyjoin '/' ((parts.headD []).take ix))

/-- The shape of one job message, as queue_job of adr.py would build it:
Runner, Batch, Command attributes always, optional PreProcessing,
PostProcessing and Store attributes. -/
structure Job where
  runner : String
  batch : String
  command : String
  pre : Option String
  post : Option String
  store : Option String
  deriving DecidableEq

/-- Outcome of a call to queue: how many batch archives were uploaded,
which job messages were enqueued, and the exception escaping the call,
if any. -/
structure QueueResult where
  uploads : Nat
  enqueued : List Job
  error : Option PyErr
  deriving DecidableEq

/-- queue of adr.py.  Input paths are taken as already absolute (the
source applies os.path.abspath first); batch_id stands for the fresh
UUID drawn inside upload_batch.  find_root runs first and its exception
escapes before anything is uploaded.  When find_root succeeds, queue
calls upload_batch, which draws the batch UUID and then reaches a
logging call split in two across a blank line: the statement logger.inf
on its own raises AttributeError (the logger has no such attribute)
before the archive is created or uploaded and before any queue_job call,
so the call always escapes with an exception, zero uploads and zero
enqueues. -/
def queue (runner_id batch_id command : String)
    (preprocessing postprocessing : Option String)
    (store_patterns : List String) (files : List String) : QueueResult :=
  match find_root files with
  | .error e => ⟨0, [], some e⟩
  | .ok _ => ⟨0, [], some PyErr.attributeError⟩

/-- A raw SQS message: its body and its message attributes, each a key
paired with its StringValue and its DataType. -/
structure RawMsg where
  body : String
  attrs : List (String × String × String)
  deriving DecidableEq

/-- parse_message of adr.py: flatten the attribute dictionary by keeping
each key's StringValue. -/
def parse_message (m : RawMsg) : List (String × String) :=
  m.attrs.map (fun kv => (kv.1, kv.2.1))

/-- Result of get_job: the parsed message if any, the messages deleted
from the queue, the total time slept, and the poll responses left
unconsumed. -/
structure GetJobRes where
  result : Option (List (String × String))
  deleted : List RawMsg
  slept : Nat
  rest : List (List RawMsg)
  deriving DecidableEq

/-- get_job of adr.py: poll the queue up to retry times; each poll
receives at most one message (modelled as the next entry of the given
poll-response sequence), keeps only messages whose body is the execution
marker, and on a match deletes the message and returns its parsed
attributes; otherwise it sleeps for delay seconds and polls again,
falling off the loop (returning None) after the last attempt. -/
def get_job (delay : Nat) : List (List RawMsg) → Nat → GetJobRes
  | polls, 0 => ⟨none, [], 0, polls⟩
  | polls, retry+1 =>
    let received := polls.headD []
    let matching := received.filter (fun m => m.body == "execution")
    match matching with
    | [] =>
      let r := get_job delay polls.tail retry
      ⟨r.result, r.deleted, r.slept + delay, r.rest⟩
    | m :: _ => ⟨some (parse_message m), [m], 0, polls.tail⟩

/-- key_exists of adr.py, on a bucket modelled as its list of keys. -/
def key_exists (bucket : List String) (key : String) : Bool :=
  bucket.contains key

/-- upload_files of adr.py: walk the batch directory (its file names
given in walk order) and, for every file name matching at least one
include pattern, upload it under key batch_id/filename unless the key
exists and overwriting is off.  The regular-expression search over the
include patterns is abstracted as the predicate on file names; an upload
makes its key exist for the later checks.  Returns the bucket contents
and the uploaded keys in order. -/
def upload_files (batch_id : String) (mtch : String → Bool) (overwrite : Bool) :
    List String → List String → List String × List String
  | [], bucket => (bucket, [])
  | f :: fs, bucket =>
    if mtch f then
      let key := batch_id ++ "/" ++ f
      if !key_exists bucket key || overwrite then
        let r := upload_files batch_id mtch overwrite fs (key :: bucket)
        (r.1, key :: r.2)
      else upload_files batch_id mtch overwrite fs bucket
    else upload_files batch_id mtch overwrite fs bucket

/-- The downloaded batch archive blob: whether zipfile.is_zipfile holds
for it, and the paths it would extract. -/
structure Blob where
  isZip : Bool
  entries : List String
  deriving DecidableEq

/-- download_batch of adr.py.  The blob is downloaded to
path/batch_id.zip; the statement right after the download is a logging
call split in two across a blank line, so the bare attribute access
logger.inf raises AttributeError, and the zipfile check, the extraction
and the unlink below it are never reached: the function raises for every
blob, valid archive or not, leaving the downloaded copy on disk and
extracting nothing.  The local file state is the list of paths present;
the function returns that state after the call together with the
escaping exception. -/
def download_batch (batch_id path : String) (blob : Blob) (disk : List String) :
    List String × PyErr :=
  let zpath := path ++ "/" ++ batch_id ++ ".zip"
  (zpath :: disk, PyErr.attributeError)

/-- The run.sh script written by process_job: a bash shebang line and a
blank line, then the PreProcessing attribute as one line when present,
the command as one line, and the PostProcessing attribute as one line
when present. -/
def build_script (pre : Option String) (cmd : String) (post : Option String) : String :=
  "#!/bin/bash\n\n" ++
    (match pre with
      | some p => p ++ "\n"
      | none => "") ++
    cmd ++ "\n" ++
    (match post with
      | some p => p ++ "\n"
      | none => "")

/-- One local batch directory: the names of the files it holds and the
content of its .contents cache file, as written by cache_contents
(meaningful only while .contents is among the files). -/
structure Dir where
  files : List String
  cache : List String
  deriving DecidableEq

/-- Worker-side state: the local batch directories keyed by path, and
the keys present in the S3 bucket. -/
structure WState where
  dirs : List (String × Dir)
  bucket : List String
  deriving DecidableEq

def lookupDir (dirs : List (String × Dir)) (p : String) : Option Dir :=
  (dirs.find? (fun x => x.1 == p)).map (fun x => x.2)

def setDir (dirs : List (String × Dir)) (p : String) (d : Dir) : List (String × Dir) :=
  match dirs with
  | [] => [(p, d)]
  | (q, e) :: rest => if q == p then (p, d) :: rest else (q, e) :: setDir rest p d

/-- Attribute lookup in a parsed message. -/
def getAttr (attrs : List (String × String)) (k : String) : Option String :=
  (attrs.find? (fun kv => kv.1 == k)).map (fun kv => kv.2)

/-- Writing a file into a directory listing: a new name is added, an
existing one is overwritten in place. -/
def addFile (f : String) (files : List String) : List String :=
  if files.contains f then files else f :: files

/-- restore_contents of adr.py combined with the store step of
process_job (its Storing phase): split the Store attribute on the pipe
character, upload every matching file of the batch directory not
already stored, then, when the .contents cache file exists, delete every
file not listed in it.  Returns the directory afterwards, the bucket
contents and the uploaded keys. -/
def storing (rm : String → String → Bool) (batch_id stor : String)
    (d : Dir) (bucket : List String) : Dir × List String × List String :=
  let pats := pysplit '|' stor
  let mtch := fun f => pats.any (fun p => rm p f)
  let r := upload_files batch_id mtch false d.files bucket
  let d2 :=
    if d.files.contains ".contents"
    then Dir.mk (d.files.filter (fun f => d.cache.contains f)) d.cache
    else d
  (d2, r.1, r.2)

/-- The traceable actions a worker performs while processing one job. -/
inductive Act
  | download (batch_id : String)
  | writeScript (path content : String)
  | chmod (path : String)
  | call (script cwd : String) (exit : Int)
  | upload (key : String)
  deriving DecidableEq

/-- The environment a worker runs against: the effect of running a
script (given the script text, its working directory and the directory
files, the directory files afterwards), the exit code of the child
process, and the regular-expression search oracle applied to store
patterns. -/
structure Env where
  run : String → String → List String → List String
  exitCode : Int
  rmatch : String → String → Bool

/-- process_job of adr.py.  Claims a job via get_job (defaults delay 10,
retry 30); with no job it returns False and leaves the state unchanged.
Otherwise it reads the Batch and Command attributes and checks whether
the batch directory exists under workingdir.  When it does not,
process_job calls download_batch, which downloads the blob and then
raises AttributeError at its logging call split in two, so
cache_contents and everything below are never reached and the exception
escapes with the worker state unchanged.  When the directory already
exists, process_job writes the run.sh script, makes it executable, runs
it with the batch directory as its working directory without reading its
exit code, and, when the job carries a Store attribute, uploads matching
files and restores the directory listing.  Returns the outcome (the
success flag, or the escaping exception), the new state, the remaining
poll responses and the action trace. -/
def process_job (env : Env) (runner_id : String) (polls : List (List RawMsg))
    (workingdir : String) (st : WState) :
    Except PyErr Bool × WState × List (List RawMsg) × List Act :=
  let g := get_job 10 polls 30
  match g.result with
  | none => (.ok false, st, g.rest, [])
  | some attrs =>
    let batch_id := (getAttr attrs "Batch").getD ""
    let cmd := (getAttr attrs "Command").getD ""
    let batchpath := workingdir ++ "/" ++ batch_id
    match lookupDir st.dirs batchpath with
    | none =>
      (.error PyErr.attributeError, st, g.rest, [Act.download batch_id])
    | some d1 =>
      let script := build_script (getAttr attrs "PreProcessing") cmd
        (getAttr attrs "PostProcessing")
      let shpath := batchpath ++ "/run.sh"
      let d2 := Dir.mk (addFile "run.sh" d1.files) d1.cache
      let d3 := Dir.mk (env.run script batchpath d2.files) d2.cache
      let st2 := WState.mk (setDir st.dirs batchpath d3) st.bucket
      let acts := [Act.writeScript shpath script, Act.chmod shpath,
        Act.call script batchpath env.exitCode]
      match getAttr attrs "Store" with
      | none => (.ok true, st2, g.rest, acts)
      | some stor =>
        let r := storing env.rmatch batch_id stor d3 st2.bucket
        (.ok true, WState.mk (setDir st2.dirs batchpath r.1) r.2.1, g.rest,
          acts ++ r.2.2.map Act.upload)

/-- process of adr.py: the worker loop.  Although it accepts a
workingdir argument, every iteration invokes process_job with the
literal dot for the working directory.  Iteration is bounded by fuel,
the queue poll responses are threaded through, an exception escaping
process_job propagates out of the unguarded loop, and the loop ends
normally only when a poll round produced no job and stop_on_empty is
set. -/
def process (env : Env) (runner_id workingdir : String) (stop_on_empty : Bool) :
    Nat → List (List RawMsg) → WState → Option PyErr × WState × List Act
  | 0, _, st => (none, st, [])
  | fuel+1, polls, st =>
    let r := process_job env runner_id polls "." st
    match r.1 with
    | .error e => (some e, r.2.1, r.2.2.2)
    | .ok ok =>
      if !ok && stop_on_empty then (none, r.2.1, r.2.2.2)
      else
        let next := process env runner_id workingdir stop_on_empty fuel r.2.2.1 r.2.1
        (next.1, next.2.1, r.2.2.2 ++ next.2.2)

end Adr

namespace Adr

theorem pyindexFalse_error {l : List Bool} :
    ∀ {e : PyErr}, pyindexFalse l = .error e → e = PyErr.valueError := by
  induction l with
  | nil =>
    intro e h
    simp only [pyindexFalse] at h
    injection h with h
    exact h.symm
  | cons b bs ih =>
    intro e h
    cases b with
    | true =>
      rw [pyindexFalse, if_pos rfl] at h
      cases heq : pyindexFalse bs with
      | error e' =>
        rw [heq] at h
        simp only [Except.map] at h
        injection h with h
        exact h ▸ ih heq
      | ok n =>
        rw [heq] at h
        simp only [Except.map] at h
        exact Except.noConfusion h
    | false =>
      simp only [pyindexFalse, Bool.false_eq_true, if_false] at h
      exact Except.noConfusion h

theorem pyindexFalse_ok {l : List Bool} :
    ∀ {ix : Nat}, pyindexFalse l = .ok ix →
      ix < l.length ∧ l.getD ix true = false ∧ ∀ j, j < ix → l.getD j false = true := by
  induction l with
  | nil =>
    intro ix h
    simp only [pyindexFalse] at h
    exact Except.noConfusion h
  | cons b bs ih =>
    intro ix h
    cases b with
    | true =>
      rw [pyindexFalse, if_pos rfl] at h
      cases heq : pyindexFalse bs with
      | error e' =>
        rw [heq] at h
        simp only [Except.map] at h
        exact Except.noConfusion h
      | ok n =>
        rw [heq] at h
        simp only [Except.map] at h
        injection h with h
        obtain ⟨h1, h2, h3⟩ := ih heq
        subst h
        refine ⟨Nat.succ_lt_succ h1, by simpa using h2, ?_⟩
        intro j hj
        cases j with
        | zero => simp
        | succ j => simpa using h3 j (Nat.lt_of_succ_lt_succ hj)
    | false =>
      simp only [pyindexFalse, Bool.false_eq_true, if_false] at h
      injection h with h
      subst h
      exact ⟨Nat.succ_pos _, by simp, fun j hj => absurd hj (Nat.not_lt_zero j)⟩

theorem allEqStr_eq_head {x : String} {xs : List String}
    (h : allEqStr (x :: xs) = true) : ∀ y ∈ x :: xs, y = x := by
  intro y hy
  simp only [allEqStr, List.all_eq_true] at h
  rcases List.mem_cons.mp hy with h' | h'
  · exact h'
  · simpa using h y h'

theorem foldl_min_le (ps : List (List String)) (a : Nat) :
    (ps.foldl (fun m q => min m q.length) a ≤ a ∧
      ∀ p ∈ ps, ps.foldl (fun m q => min m q.length) a ≤ p.length) := by
  induction ps generalizing a with
  | nil => exact ⟨Nat.le_refl a, by simp⟩
  | cons r rs ih =>
    obtain ⟨ih1, ih2⟩ := ih (min a r.length)
    refine ⟨?_, ?_⟩
    · rw [List.foldl_cons]
      exact Nat.le_trans ih1 (Nat.min_le_left _ _)
    · intro p hp
      rw [List.foldl_cons]
      rcases List.mem_cons.mp hp with rfl | h'
      · exact Nat.le_trans ih1 (Nat.min_le_right _ _)
      · exact ih2 p h'

theorem minLen_le {parts : List (List String)} {p : List String} (hp : p ∈ parts) :
    minLen parts ≤ p.length := by
  cases parts with
  | nil => cases hp
  | cons q ps =>
    rcases List.mem_cons.mp hp with h' | h'
    · exact h' ▸ (foldl_min_le ps q.length).1
    · exact (foldl_min_le ps q.length).2 p h'

theorem zipCols_length {q : List String} {ps : List (List String)} :
    (zipCols (q :: ps)).length = minLen (q :: ps) := by
  simp [zipCols]

theorem zipCols_getElem? {q : List String} {ps : List (List String)} {j : Nat}
    (hj : j < minLen (q :: ps)) :
    (zipCols (q :: ps))[j]? = some ((q :: ps).map (fun p => p.getD j "")) := by
  simp [zipCols, List.getElem?_map, List.getElem?_range, hj]

/-- C4 (amended): when find_root succeeds, its result is the join of the
first path's segments before the first zipped-column index at which the
paths' segments are not all equal; that index is below every path's
segment count, all paths agree on every earlier segment, and the paths
genuinely disagree at that index.  When find_root fails, the exception is
always ValueError (the code has no AmbiguousRootError), which happens
exactly when every compared column agrees. -/
theorem find_root_characterization (files : List String) :
    (∀ e, find_root files = Except.error e → e = PyErr.valueError) ∧
    (∀ root, find_root files = Except.ok root →
      ∃ ix,
        (∀ f ∈ files, ix < (pysplit '/' f).length) ∧
        root = pyjoin '/' ((pysplit '/' (files.headD "")).take ix) ∧
        (∀ f ∈ files, ∀ j, j < ix →
          (pysplit '/' f).getD j "" = (pysplit '/' (files.headD "")).getD j "") ∧
        allEqStr (files.map (fun f => (pysplit '/' f).getD ix "")) = false) := by
  constructor
  · intro e he
    simp only [find_root] at he
    split at he
    · injection he with he
      next heq => exact he ▸ pyindexFalse_error heq
    · exact absurd he (by simp)
  · intro root hr
    simp only [find_root] at hr
    split at hr
    · exact absurd hr (by simp)
    · next ix heq =>
      injection hr with hr
      obtain ⟨h1, h2, h3⟩ := pyindexFalse_ok heq
      cases hf : files with
      | nil =>
        subst hf
        simp [zipCols] at h1
      | cons f0 fs =>
        subst hf
        rw [List.length_map, List.map_cons, zipCols_length] at h1
        refine ⟨ix, ?_, ?_, ?_, ?_⟩
        · intro f hfm
          exact Nat.lt_of_lt_of_le h1
            (minLen_le (List.mem_map_of_mem (fun g => pysplit '/' g) hfm))
        · simpa using hr.symm
        · intro f hfm j hj
          have hjlt : j < minLen (pysplit '/' f0 :: fs.map (fun g => pysplit '/' g)) :=
            Nat.lt_trans hj h1
          have hcol := h3 j hj
          rw [List.getD_eq_getElem?_getD, List.getElem?_map, List.map_cons,
            zipCols_getElem? hjlt] at hcol
          simp only [Option.map_some', Option.getD_some] at hcol
          have := @allEqStr_eq_head ((pysplit '/' f0).getD j "")
            ((fs.map (fun g => pysplit '/' g)).map (fun p => p.getD j ""))
            (by simpa using hcol)
          rcases List.mem_cons.mp hfm with h' | h'
          · simp [h']
          · have hmem : (pysplit '/' f).getD j "" ∈
                ((pysplit '/' f0).getD j "" ::
                  (fs.map (fun g => pysplit '/' g)).map (fun p => p.getD j "")) :=
              List.mem_cons_of_mem _
                (List.mem_map_of_mem (fun p => p.getD j "")
                  (List.mem_map_of_mem (fun g => pysplit '/' g) h'))
            simpa using this _ hmem
        · have hcol := h2
          rw [List.getD_eq_getElem?_getD, List.getElem?_map, List.map_cons,
            zipCols_getElem? h1] at hcol
          simp only [Option.map_some', Option.getD_some] at hcol
          have : ((f0 :: fs).map (fun f => (pysplit '/' f).getD ix "")) =
              ((pysplit '/' f0 :: fs.map (fun g => pysplit '/' g)).map
                (fun p => p.getD ix "")) := by
            simp [List.map_map]
          rw [this]
          simpa using hcol

/-- C4 (counterexample): for two absolute files one of which is a
segment-prefix of the other, find_root raises ValueError instead of
returning the longest common path prefix /a/b; and for two relative
paths disagreeing at segment index 0, find_root returns the empty root
without raising any error, contradicting the claimed AmbiguousRootError. -/
theorem find_root_claim_fails :
    find_root ["/a/b", "/a/b/c"] = .error PyErr.valueError ∧
    find_root ["a/x", "b/y"] = .ok "" := ⟨rfl, rfl⟩

/-- C4 (witness): the characterization applied to the files of the
spec's second root-finding example, whose root /a is returned. -/
theorem find_root_characterization_witness :
    ∃ ix,
      (∀ f ∈ (["/a/b/c.txt", "/a/x/d.txt"] : List String), ix < (pysplit '/' f).length) ∧
      "/a" = pyjoin '/' ((pysplit '/'
        ((["/a/b/c.txt", "/a/x/d.txt"] : List String).headD "")).take ix) ∧
      (∀ f ∈ (["/a/b/c.txt", "/a/x/d.txt"] : List String), ∀ j, j < ix →
        (pysplit '/' f).getD j "" = (pysplit '/'
          ((["/a/b/c.txt", "/a/x/d.txt"] : List String).headD "")).getD j "") ∧
      allEqStr ((["/a/b/c.txt", "/a/x/d.txt"] : List String).map
        (fun f => (pysplit '/' f).getD ix "")) = false :=
  (find_root_characterization ["/a/b/c.txt", "/a/x/d.txt"]).2 "/a" rfl

/-- C5 (code bug): at the spec's end-to-end scenario - three files
sharing root /data/run and a single-placeholder command template - the
source crashes with AttributeError inside upload_batch, at its logging
call split in two across a blank line (the bare statement logger.inf),
right after drawing the batch UUID and before the archive is zipped or
uploaded and before any queue_job call: queue performs zero uploads and
zero enqueues instead of the one upload and three messages it documents
itself to perform. -/
theorem queue_crashes_before_upload :
    queue "r" "B" "model \x7b\x7d" none none []
      ["/data/run/a.txt", "/data/run/b.txt", "/data/run/c.txt"] =
      ⟨0, [], some PyErr.attributeError⟩ := rfl

/-- C3 (amended): publishing an empty file list raises an unhandled
ValueError inside find_root (the code defines no EmptyBatchError); no
batch archive is uploaded and no job message is enqueued. -/
theorem queue_empty_input (runner_id batch_id command : String)
    (pre post : Option String) (pats : List String) :
    queue runner_id batch_id command pre post pats [] =
      ⟨0, [], some PyErr.valueError⟩ := rfl

/-- C3 (counterexample): on the empty file list the error escaping queue
is ValueError, not the EmptyBatchError the claim names; uploads and
enqueues are both zero. -/
theorem queue_empty_not_emptyBatchError :
    (queue "r" "b" "model \x7b\x7d" none none [] []).error = some PyErr.valueError ∧
    (some PyErr.valueError ≠ some PyErr.emptyBatchError) ∧
    (queue "r" "b" "model \x7b\x7d" none none [] []).uploads = 0 ∧
    (queue "r" "b" "model \x7b\x7d" none none [] []).enqueued = [] := by
  refine ⟨rfl, by decide, rfl, rfl⟩

theorem contains_iff (l : List String) (a : String) : l.contains a = true ↔ a ∈ l := by
  constructor
  · intro h
    simpa [List.contains, List.elem_eq_mem] using h
  · intro h
    simp [List.contains, List.elem_eq_mem, h]

theorem getD_tail (polls : List (List RawMsg)) (i : Nat) :
    polls.tail.getD i [] = polls.getD (i + 1) [] := by
  cases polls <;> simp [List.getD]

/-- C2: get_job returns attributes only when they are parsed from a
received message whose body is the execution marker, and exactly that
message is deleted from the queue; when no poll within the retry bound
receives a marker message, get_job returns None rather than raising,
having slept the fixed delay after every one of the retry polls. -/
theorem get_job_spec (delay retry : Nat) (polls : List (List RawMsg)) :
    (∀ attrs, (get_job delay polls retry).result = some attrs →
      ∃ m, (get_job delay polls retry).deleted = [m] ∧ m.body = "execution" ∧
        attrs = parse_message m) ∧
    ((∀ i, i < retry → ∀ m ∈ polls.getD i [], ¬ m.body = "execution") →
      (get_job delay polls retry).result = none ∧
      (get_job delay polls retry).slept = retry * delay) := by
  induction retry generalizing polls with
  | zero =>
    refine ⟨fun attrs h => ?_, fun _ => ⟨rfl, by simp [get_job]⟩⟩
    simp [get_job] at h
  | succ r ih =>
    cases hm : (polls.headD []).filter (fun m => m.body == "execution") with
    | nil =>
      have hg : get_job delay polls (r + 1) =
          ⟨(get_job delay polls.tail r).result, (get_job delay polls.tail r).deleted,
            (get_job delay polls.tail r).slept + delay,
            (get_job delay polls.tail r).rest⟩ := by
        simp only [get_job, hm]
      constructor
      · intro attrs h
        rw [hg] at h
        obtain ⟨m, hd, hb, ha⟩ := (ih polls.tail).1 attrs h
        exact ⟨m, by rw [hg]; exact hd, hb, ha⟩
      · intro hnone
        have hnone' : ∀ i, i < r → ∀ m ∈ polls.tail.getD i [], ¬ m.body = "execution" := by
          intro i hi m hmem
          rw [getD_tail] at hmem
          exact hnone (i + 1) (Nat.succ_lt_succ hi) m hmem
        obtain ⟨h1, h2⟩ := (ih polls.tail).2 hnone'
        rw [hg]
        exact ⟨h1, by simp only [h2, Nat.succ_mul]⟩
    | cons m ms =>
      have hg : get_job delay polls (r + 1) = ⟨some (parse_message m), [m], 0, polls.tail⟩ := by
        simp only [get_job, hm]
      have hmem : m ∈ (polls.headD []).filter (fun m => m.body == "execution") := by
        rw [hm]
        exact List.mem_cons_self m ms
      obtain ⟨hrecv, hbody⟩ := List.mem_filter.mp hmem
      have hbody' : m.body = "execution" := by simpa using hbody
      constructor
      · intro attrs h
        rw [hg] at h
        injection h with h
        exact ⟨m, by rw [hg], hbody', h.symm⟩
      · intro hnone
        exfalso
        cases hp : polls with
        | nil =>
          rw [hp] at hm
          simp at hm
        | cons p ps =>
          refine hnone 0 (Nat.succ_pos r) m ?_ hbody'
          rw [hp]
          rw [hp] at hrecv
          simpa using hrecv

/-- C2 (witness): a queue whose first poll returns a non-marker message
and whose second returns a marker message makes get_job delete and
return the marker message; a queue of solely non-marker messages makes
get_job return None after sleeping thirty times ten seconds. -/
theorem get_job_spec_witness :
    (∃ m, (get_job 10 [[⟨"other", []⟩], [⟨"execution", [("Batch", "B", "String")]⟩]]
        30).deleted = [m] ∧ m.body = "execution" ∧
        [("Batch", "B")] = parse_message m) ∧
    (get_job 10 [[⟨"noise", [("Batch", "B", "String")]⟩]] 30).result = none ∧
    (get_job 10 [[⟨"noise", [("Batch", "B", "String")]⟩]] 30).slept = 30 * 10 := by
  refine ⟨(get_job_spec 10 30
      [[⟨"other", []⟩], [⟨"execution", [("Batch", "B", "String")]⟩]]).1
      [("Batch", "B")] rfl, ?_, ?_⟩
  · exact ((get_job_spec 10 30 [[⟨"noise", [("Batch", "B", "String")]⟩]]).2
      (by decide)).1
  · exact ((get_job_spec 10 30 [[⟨"noise", [("Batch", "B", "String")]⟩]]).2
      (by decide)).2

theorem upload_files_mono (batch_id : String) (mtch : String → Bool) (ow : Bool)
    (fs : List String) : ∀ bucket k, k ∈ bucket →
      k ∈ (upload_files batch_id mtch ow fs bucket).1 := by
  induction fs with
  | nil =>
    intro bucket k hk
    exact hk
  | cons f fs ih =>
    intro bucket k hk
    simp only [upload_files]
    by_cases hf : mtch f = true
    · simp only [hf, if_true]
      by_cases he : (!key_exists bucket (batch_id ++ "/" ++ f) || ow) = true
      · simp only [he, if_true]
        exact ih _ k (List.mem_cons_of_mem _ hk)
      · simp only [he, if_false]
        exact ih _ k hk
    · simp only [hf, if_false]
      exact ih _ k hk

theorem upload_files_covers (batch_id : String) (mtch : String → Bool)
    (fs : List String) : ∀ bucket f, f ∈ fs → mtch f = true →
      (batch_id ++ "/" ++ f) ∈ (upload_files batch_id mtch false fs bucket).1 := by
  induction fs with
  | nil =>
    intro bucket f hf
    cases hf
  | cons g fs ih =>
    intro bucket f hf hmf
    rcases List.mem_cons.mp hf with rfl | hf'
    · simp only [upload_files, hmf, if_true]
      by_cases he : key_exists bucket (batch_id ++ "/" ++ f) = true
      · have hc : (!key_exists bucket (batch_id ++ "/" ++ f) || false) = false := by
          simp [he]
        simp only [hc, if_false]
        exact upload_files_mono batch_id mtch false fs bucket _
          ((contains_iff _ _).mp he)
      · have hc : (!key_exists bucket (batch_id ++ "/" ++ f) || false) = true := by
          simp [he]
        simp only [hc, if_true]
        exact upload_files_mono batch_id mtch false fs _ _ (List.mem_cons_self _ _)
    · simp only [upload_files]
      by_cases hg : mtch g = true
      · simp only [hg, if_true]
        by_cases he : (!key_exists bucket (batch_id ++ "/" ++ g) || false) = true
        · simp only [he, if_true]
          exact ih _ f hf' hmf
        · simp only [he, if_false]
          exact ih _ f hf' hmf
      · simp only [hg, if_false]
        exact ih _ f hf' hmf

theorem upload_files_noop (batch_id : String) (mtch : String → Bool)
    (fs : List String) : ∀ bucket,
      (∀ f ∈ fs, mtch f = true → (batch_id ++ "/" ++ f) ∈ bucket) →
      upload_files batch_id mtch false fs bucket = (bucket, []) := by
  induction fs with
  | nil =>
    intro bucket _
    rfl
  | cons f fs ih =>
    intro bucket h
    simp only [upload_files]
    by_cases hf : mtch f = true
    · have hk : (batch_id ++ "/" ++ f) ∈ bucket := h f (List.mem_cons_self _ _) hf
      have he : key_exists bucket (batch_id ++ "/" ++ f) = true :=
        (contains_iff _ _).mpr hk
      have hc : (!key_exists bucket (batch_id ++ "/" ++ f) || false) = false := by
        simp [he]
      simp only [hf, if_true, hc, if_false]
      exact ih bucket (fun g hg => h g (List.mem_cons_of_mem _ hg))
    · simp only [hf, if_false]
      exact ih bucket (fun g hg => h g (List.mem_cons_of_mem _ hg))

theorem upload_files_fresh (batch_id : String) (mtch : String → Bool)
    (fs : List String) : ∀ bucket,
      (upload_files batch_id mtch false fs bucket).2.Nodup ∧
      ∀ k ∈ (upload_files batch_id mtch false fs bucket).2, k ∉ bucket := by
  induction fs with
  | nil =>
    intro bucket
    exact ⟨List.nodup_nil, by simp [upload_files]⟩
  | cons f fs ih =>
    intro bucket
    simp only [upload_files]
    by_cases hf : mtch f = true
    · by_cases he : key_exists bucket (batch_id ++ "/" ++ f) = true
      · have hc : (!key_exists bucket (batch_id ++ "/" ++ f) || false) = false := by
          simp [he]
        simp only [hf, if_true, hc, if_false]
        exact ih bucket
      · have hc : (!key_exists bucket (batch_id ++ "/" ++ f) || false) = true := by
          simp [he]
        simp only [hf, if_true, hc, if_true]
        obtain ⟨ihn, ihf⟩ := ih ((batch_id ++ "/" ++ f) :: bucket)
        constructor
        · rw [List.nodup_cons]
          refine ⟨fun hmem => ?_, ihn⟩
          exact ihf _ hmem (List.mem_cons_self _ _)
        · intro k hk
          rcases List.mem_cons.mp hk with rfl | hk'
          · intro hkb
            exact he ((contains_iff _ _).mpr hkb)
          · intro hkb
            exact ihf k hk' (List.mem_cons_of_mem _ hkb)
    · simp only [hf, if_false]
      exact ih bucket

/-- C6: with overwriting off, a file is uploaded only when its key
batch_id/filename is absent, so the first call uploads no key twice and
no key already stored, and a second identical call is a no-op: each
matching file is uploaded at most once in total across both calls. -/
theorem upload_files_idempotent (batch_id : String) (mtch : String → Bool)
    (fs bucket : List String) :
    upload_files batch_id mtch false fs
      (upload_files batch_id mtch false fs bucket).1 =
      ((upload_files batch_id mtch false fs bucket).1, []) ∧
    (upload_files batch_id mtch false fs bucket).2.Nodup ∧
    (∀ k ∈ (upload_files batch_id mtch false fs bucket).2, k ∉ bucket) := by
  refine ⟨?_, (upload_files_fresh batch_id mtch fs bucket).1,
    (upload_files_fresh batch_id mtch fs bucket).2⟩
  exact upload_files_noop batch_id mtch fs _
    (fun f hf hmf => upload_files_covers batch_id mtch fs bucket f hf hmf)

/-- C7 (amended): download_batch downloads the blob copy and then
raises AttributeError at its logging call split in two across a blank
line, before the zipfile check: it never raises FormatError, extracts
nothing (the disk afterwards holds only the blob copy and what was
already there), never deletes the blob copy, and behaves identically for
valid and invalid archives. -/
theorem download_batch_spec (batch_id path : String) (blob : Blob)
    (disk : List String) :
    (download_batch batch_id path blob disk).2 = PyErr.attributeError ∧
    (download_batch batch_id path blob disk).2 ≠ PyErr.formatError ∧
    (path ++ "/" ++ batch_id ++ ".zip") ∈ (download_batch batch_id path blob disk).1 ∧
    (∀ q ∈ (download_batch batch_id path blob disk).1,
      q = path ++ "/" ++ batch_id ++ ".zip" ∨ q ∈ disk) ∧
    (∀ blob2 : Blob, download_batch batch_id path blob disk =
      download_batch batch_id path blob2 disk) := by
  refine ⟨rfl, by simp [download_batch], List.mem_cons_self _ _, ?_, fun blob2 => rfl⟩
  intro q hq
  exact List.mem_cons.mp hq

/-- C7 (counterexample): a blob that is not a valid archive does not
make download_batch fail with a FormatError: the function downloads the
blob copy and raises AttributeError at the broken logging statement,
leaving the copy on disk instead of deleting it; and a valid archive
fares no better, with nothing extracted (out.nc never appears). -/
theorem download_batch_claim_fails :
    download_batch "b" "." ⟨false, ["b/out.nc"]⟩ ["./b/a.txt"] =
      (["./b.zip", "./b/a.txt"], PyErr.attributeError) ∧
    PyErr.attributeError ≠ PyErr.formatError ∧
    download_batch "b" "." ⟨true, ["b/out.nc"]⟩ ["./b/a.txt"] =
      (["./b.zip", "./b/a.txt"], PyErr.attributeError) := by
  exact ⟨rfl, by decide, rfl⟩

/-- C1 (amended): after the Storing phase the batch directory holds
exactly those of its current files that the snapshot cache lists: every
file added after materialization is deleted, including files matched by
a store pattern, which are uploaded to the bucket (or already present
there) before the deletion. -/
theorem storing_restores_snapshot (rm : String → String → Bool)
    (batch_id stor : String) (d : Dir) (bucket : List String)
    (hc : d.files.contains ".contents" = true) :
    (storing rm batch_id stor d bucket).1.files =
      d.files.filter (fun f => d.cache.contains f) ∧
    (∀ f ∈ d.files, (pysplit '|' stor).any (fun p => rm p f) = true →
      (batch_id ++ "/" ++ f) ∈ (storing rm batch_id stor d bucket).2.1) := by
  constructor
  · simp only [storing, hc, if_true]
  · intro f hf hm
    simp only [storing]
    exact upload_files_covers batch_id _ d.files bucket f hf hm

/-- C1 (counterexample): with snapshot a.txt, b.txt (plus the cache file
itself), post-execution contents additionally run.sh, c.out and d.nc,
and a store pattern matching d.nc only, the Storing phase uploads d.nc
but afterwards the directory holds only the snapshot files: d.nc is
deleted locally together with c.out and run.sh, contradicting the
claimed final contents a.txt, b.txt, d.nc. -/
theorem storing_claim_fails :
    storing (fun p f => p == "dnc" && f == "d.nc") "B" "dnc"
      ⟨[".contents", "a.txt", "b.txt", "run.sh", "c.out", "d.nc"],
        [".contents", "a.txt", "b.txt"]⟩ [] =
      (⟨[".contents", "a.txt", "b.txt"], [".contents", "a.txt", "b.txt"]⟩,
        ["B/d.nc"], ["B/d.nc"]) := rfl

/-- C1 (witness): the amended statement at the example scenario, with a
store pattern matching d.nc only. -/
theorem storing_restores_snapshot_witness :
    (storing (fun p f => p == "dpat" && f == "d.nc") "B" "dpat"
      ⟨[".contents", "a.txt", "b.txt", "run.sh", "c.out", "d.nc"],
        [".contents", "a.txt", "b.txt"]⟩ []).1.files =
      ([".contents", "a.txt", "b.txt", "run.sh", "c.out", "d.nc"] : List String).filter
        (fun f => ([".contents", "a.txt", "b.txt"] : List String).contains f) ∧
    (∀ f ∈ ([".contents", "a.txt", "b.txt", "run.sh", "c.out", "d.nc"] : List String),
      (pysplit '|' "dpat").any
        (fun p => (fun p f => p == "dpat" && f == "d.nc") p f) = true →
      ("B" ++ "/" ++ f) ∈ (storing (fun p f => p == "dpat" && f == "d.nc") "B" "dpat"
        ⟨[".contents", "a.txt", "b.txt", "run.sh", "c.out", "d.nc"],
          [".contents", "a.txt", "b.txt"]⟩ []).2.1) :=
  storing_restores_snapshot (fun p f => p == "dpat" && f == "d.nc") "B" "dpat"
    ⟨[".contents", "a.txt", "b.txt", "run.sh", "c.out", "d.nc"],
      [".contents", "a.txt", "b.txt"]⟩ [] (by decide)

theorem splitChar_sep_cons (sep : Char) (r : List Char) :
    splitChar sep (sep :: r) = [] :: splitChar sep r := by
  simp [splitChar]

theorem splitChar_append (sep : Char) (l r : List Char) (hl : sep ∉ l) :
    splitChar sep (l ++ sep :: r) = l :: splitChar sep r := by
  induction l with
  | nil => simpa using splitChar_sep_cons sep r
  | cons c l ih =>
    have hc : ¬ c = sep := fun h => hl (h ▸ List.mem_cons_self c l)
    have hl2 : sep ∉ l := fun h => hl (List.mem_cons_of_mem c h)
    rw [List.cons_append]
    simp only [splitChar, if_neg hc, ih hl2]

theorem build_script_lines (pre post : Option String) (cmd : String)
    (hpre : ∀ p, pre = some p → '\n' ∉ p.data)
    (hcmd : '\n' ∉ cmd.data)
    (hpost : ∀ p, post = some p → '\n' ∉ p.data) :
    splitChar '\n' (build_script pre cmd post).data =
      ["#!/bin/bash".data, []] ++ (pre.map String.data).toList ++ [cmd.data] ++
        (post.map String.data).toList ++ [[]] := by
  have hsheb : '\n' ∉ "#!/bin/bash".data := by decide
  cases pre with
  | none =>
    cases post with
    | none =>
      have hdata : (build_script none cmd none).data =
          "#!/bin/bash".data ++ '\n' :: '\n' :: (cmd.data ++ '\n' :: []) := by
        simp only [build_script, String.data_append]
        simp [List.append_assoc]
      rw [hdata, splitChar_append _ _ _ hsheb, splitChar_sep_cons,
        splitChar_append _ _ _ hcmd]
      rfl
    | some q =>
      have hq := hpost q rfl
      have hdata : (build_script none cmd (some q)).data =
          "#!/bin/bash".data ++ '\n' :: '\n' ::
            (cmd.data ++ '\n' :: (q.data ++ '\n' :: [])) := by
        simp only [build_script, String.data_append]
        simp [List.append_assoc]
      rw [hdata, splitChar_append _ _ _ hsheb, splitChar_sep_cons,
        splitChar_append _ _ _ hcmd, splitChar_append _ _ _ hq]
      rfl
  | some p =>
    have hp := hpre p rfl
    cases post with
    | none =>
      have hdata : (build_script (some p) cmd none).data =
          "#!/bin/bash".data ++ '\n' :: '\n' ::
            (p.data ++ '\n' :: (cmd.data ++ '\n' :: [])) := by
        simp only [build_script, String.data_append]
        simp [List.append_assoc]
      rw [hdata, splitChar_append _ _ _ hsheb, splitChar_sep_cons,
        splitChar_append _ _ _ hp, splitChar_append _ _ _ hcmd]
      rfl
    | some q =>
      have hq := hpost q rfl
      have hdata : (build_script (some p) cmd (some q)).data =
          "#!/bin/bash".data ++ '\n' :: '\n' ::
            (p.data ++ '\n' :: (cmd.data ++ '\n' :: (q.data ++ '\n' :: []))) := by
        simp only [build_script, String.data_append]
        simp [List.append_assoc]
      rw [hdata, splitChar_append _ _ _ hsheb, splitChar_sep_cons,
        splitChar_append _ _ _ hp, splitChar_append _ _ _ hcmd,
        splitChar_append _ _ _ hq]
      rfl

/-- C8 (amended): for a claimed job whose batch directory already
exists locally (the batch-reuse branch), the synthesized run.sh script
splits on newlines into the bash shebang line, a blank separator line,
the PreProcessing attribute as one line exactly when present, exactly
one line holding the job's command, the PostProcessing attribute as one
line exactly when present, and the empty fragment of the final newline;
the script is written and made executable before the call action, the
call runs it with the batch directory as its working directory, the
returned outcome is True, and the resulting state does not depend on the
exit code. -/
theorem script_execution (env : Env) (runner_id : String)
    (polls : List (List RawMsg)) (workingdir : String) (st : WState)
    (attrs : List (String × String)) (d : Dir)
    (hclaim : (get_job 10 polls 30).result = some attrs)
    (hdir : lookupDir st.dirs
      (workingdir ++ "/" ++ (getAttr attrs "Batch").getD "") = some d)
    (hpre : ∀ p, getAttr attrs "PreProcessing" = some p → '\n' ∉ p.data)
    (hcmd : '\n' ∉ ((getAttr attrs "Command").getD "").data)
    (hpost : ∀ p, getAttr attrs "PostProcessing" = some p → '\n' ∉ p.data) :
    splitChar '\n' (build_script (getAttr attrs "PreProcessing")
        ((getAttr attrs "Command").getD "") (getAttr attrs "PostProcessing")).data =
      ["#!/bin/bash".data, []] ++
        ((getAttr attrs "PreProcessing").map String.data).toList ++
        [((getAttr attrs "Command").getD "").data] ++
        ((getAttr attrs "PostProcessing").map String.data).toList ++ [[]] ∧
    (∃ postActs, (process_job env runner_id polls workingdir st).2.2.2 =
      [Act.writeScript
          (workingdir ++ "/" ++ (getAttr attrs "Batch").getD "" ++ "/run.sh")
          (build_script (getAttr attrs "PreProcessing")
            ((getAttr attrs "Command").getD "") (getAttr attrs "PostProcessing")),
        Act.chmod
          (workingdir ++ "/" ++ (getAttr attrs "Batch").getD "" ++ "/run.sh"),
        Act.call
          (build_script (getAttr attrs "PreProcessing")
            ((getAttr attrs "Command").getD "") (getAttr attrs "PostProcessing"))
          (workingdir ++ "/" ++ (getAttr attrs "Batch").getD "") env.exitCode] ++
      postActs) ∧
    (process_job env runner_id polls workingdir st).1 = .ok true ∧
    (∀ e1 e2 : Int,
      (process_job ⟨env.run, e1, env.rmatch⟩
        runner_id polls workingdir st).2.1 =
      (process_job ⟨env.run, e2, env.rmatch⟩
        runner_id polls workingdir st).2.1) := by
  refine ⟨build_script_lines _ _ _ hpre hcmd hpost, ?_, ?_, ?_⟩
  · simp only [process_job, hclaim, hdir]
    cases hstore : getAttr attrs "Store" with
    | none => exact ⟨[], rfl⟩
    | some s => exact ⟨_, rfl⟩
  · simp only [process_job, hclaim, hdir]
    cases getAttr attrs "Store" <;> rfl
  · intro e1 e2
    simp only [process_job, hclaim, hdir]
    cases getAttr attrs "Store" <;> rfl

/-- C8 (counterexample): a claimed job whose batch directory is not yet
materialized locally: the source crashes inside download_batch (the
logging call split in two right after the download) before run.sh is
ever written, made executable or run, so process_job raises
AttributeError instead of returning True and its trace holds no script
action at all. -/
theorem process_job_unmaterialized_crashes :
    process_job ⟨fun _ _ fls => fls, 0, fun _ _ => false⟩ "r"
      [[⟨"execution", [("Batch", "B", "String"), ("Command", "echo hi", "String")]⟩]]
      "." ⟨[], []⟩ =
      (.error PyErr.attributeError, ⟨[], []⟩, [], [Act.download "B"]) := rfl

/-- C8 (witness): a claimed job with a preprocessing attribute, no
postprocessing attribute and an already-materialized batch directory:
the script lines are the shebang, the blank line, the preprocessing
line, the command line and the trailing empty fragment, and process_job
returns True. -/
theorem script_execution_witness :
    splitChar '\n' (build_script (some "source env") "echo hi" none).data =
      ["#!/bin/bash".data, [], "source env".data, "echo hi".data, []] ∧
    (process_job ⟨fun _ _ fls => fls, 0, fun _ _ => false⟩ "r"
      [[⟨"execution", [("Batch", "B", "String"), ("Command", "echo hi", "String"),
        ("PreProcessing", "source env", "String")]⟩]] "."
      ⟨[("./B", ⟨["a.txt"], ["a.txt"]⟩)], []⟩).1 = .ok true := by
  have h := script_execution
    ⟨fun _ _ fls => fls, 0, fun _ _ => false⟩ "r"
    [[⟨"execution", [("Batch", "B", "String"), ("Command", "echo hi", "String"),
      ("PreProcessing", "source env", "String")]⟩]] "."
    ⟨[("./B", ⟨["a.txt"], ["a.txt"]⟩)], []⟩
    [("Batch", "B"), ("Command", "echo hi"), ("PreProcessing", "source env")]
    ⟨["a.txt"], ["a.txt"]⟩ rfl rfl
    (fun p hp => by injection hp with h2; rw [← h2]; decide)
    (by decide)
    (fun p hp => Option.noConfusion hp)
  exact ⟨h.1, h.2.2.1⟩

/-- C10: the worker loop discards its workingdir argument: processing is
identical under any two working directories, because every iteration
passes the literal dot to process_job, so batches are always looked up
and processed under the current directory (and the crash on an
unmaterialized batch happens there too); the argument is not vacuous,
since process_job itself depends on its working directory. -/
theorem process_ignores_workingdir (env : Env) (runner_id : String)
    (stop_on_empty : Bool) (fuel : Nat) (polls : List (List RawMsg)) (st : WState)
    (w1 w2 : String) :
    process env runner_id w1 stop_on_empty fuel polls st =
      process env runner_id w2 stop_on_empty fuel polls st ∧
    (∃ (env0 : Env) (polls0 : List (List RawMsg)) (st0 : WState) (w rid : String),
      ¬ process_job env0 rid polls0 w st0 = process_job env0 rid polls0 "." st0) := by
  constructor
  · induction fuel generalizing polls st with
    | zero => rfl
    | succ n ih =>
      simp only [process]
      cases (process_job env runner_id polls "." st).1 with
      | error e => rfl
      | ok ok => simp only [ih]
  · refine ⟨⟨fun _ _ fls => fls, 0, fun _ _ => false⟩,
      [[⟨"execution", [("Batch", "B", "String"), ("Command", "c", "String")]⟩]],
      ⟨[("w/B", ⟨["x"], ["x"]⟩)], []⟩, "w", "r", ?_⟩
    intro hEq
    exact Except.noConfusion (congrArg (fun r => r.1) hEq)

/-- C9: find_root maps two files under /a/b to root /a/b, and two files
diverging after /a to root /a, exactly as the spec's examples state. -/
theorem find_root_examples :
    find_root ["/a/b/c.txt", "/a/b/d.txt"] = .ok "/a/b" ∧
    find_root ["/a/b/c.txt", "/a/x/d.txt"] = .ok "/a" := by
  constructor <;> rfl

end Adr
